import Mathlib

/-!
Shallow embedding of src/orthanc_helper.py (a thin wrapper around the
pyorthanc client for an Orthanc DICOM archive) and proofs about the
claims of the specification.

The remote Orthanc server is modelled by an explicit `ServerState`
(the list of stored studies and a fresh-id counter); the local
filesystem by an association list from paths to byte lists; console
and network side effects by explicit event traces.  Python list
slicing `l[i::n]` is modelled by `pySlice`.
-/

namespace OrthancHelper

/-! ### Python slicing `l[i::n]` and the round-robin split -/

/-- Takes every `n`-th element of a list, starting at the head
(the model of the stride part of Python slicing `l[::n]`). -/
def everyNth (n : Nat) : List α → List α
  | [] => []
  | a :: rest => a :: everyNth n (rest.drop (n - 1))
  termination_by l => l.length
  decreasing_by
    simp only [List.length_drop, List.length_cons]
    omega

/-- Model of the Python slice `l[i::n]`: elements at indices
`i, i + n, i + 2n, ...`. -/
def pySlice (l : List α) (i n : Nat) : List α :=
  everyNth n (l.drop i)

/-- The round-robin split used by all fan-out loops of the source:
`[l[0::n], l[1::n], ..., l[n-1::n]]`
(`for i in range(threads_no): ... dicom_files[i::threads_no]`). -/
def slices (l : List α) (n : Nat) : List (List α) :=
  (List.range n).map (fun i => pySlice l i n)

theorem everyNth_nil (n : Nat) : everyNth n ([] : List α) = [] := by
  rw [everyNth]

theorem everyNth_cons (n : Nat) (a : α) (l : List α) :
    everyNth n (a :: l) = a :: everyNth n (l.drop (n - 1)) := by
  rw [everyNth]

theorem pySlice_nil (i n : Nat) : pySlice ([] : List α) i n = [] := by
  simp [pySlice, everyNth_nil]

theorem pySlice_cons_zero (a : α) (l : List α) (m : Nat) :
    pySlice (a :: l) 0 (m + 1) = a :: pySlice l m (m + 1) := by
  simp [pySlice, everyNth_cons]

theorem pySlice_cons_succ (a : α) (l : List α) (i n : Nat) :
    pySlice (a :: l) (i + 1) n = pySlice l i n := by
  simp [pySlice]

theorem slices_nil (n : Nat) : (slices ([] : List α) n).flatten = [] := by
  simp [slices, pySlice_nil, List.flatten_eq_nil_iff]

theorem slices_cons (a : α) (l : List α) (m : Nat) :
    slices (a :: l) (m + 1) =
      (a :: pySlice l m (m + 1)) ::
        (List.range m).map (fun j => pySlice l j (m + 1)) := by
  simp only [slices, List.range_succ_eq_map, List.map_cons, List.map_map]
  refine congrArg₂ _ (pySlice_cons_zero a l m) ?_
  refine List.map_congr_left (fun j _ => ?_)
  simp [Function.comp, pySlice_cons_succ]

theorem slices_last (l : List α) (m : Nat) :
    slices l (m + 1) =
      (List.range m).map (fun j => pySlice l j (m + 1)) ++ [pySlice l m (m + 1)] := by
  simp [slices, List.range_succ]

/-- The concatenation of the `n` round-robin slices is a permutation of
the original list. -/
theorem slices_flatten_perm (m : Nat) (l : List α) :
    (slices l (m + 1)).flatten.Perm l := by
  induction l with
  | nil => simp [slices_nil]
  | cons a l ih =>
    rw [slices_cons]
    have hstep : (slices (a :: l) (m + 1)).flatten.Perm (a :: (slices l (m + 1)).flatten) := by
      rw [slices_cons, slices_last]
      simp only [List.flatten_cons, List.flatten_append, List.flatten_cons,
        List.flatten_nil, List.append_nil, List.cons_append]
      exact (List.perm_append_comm).cons a
    rw [slices_cons] at hstep
    exact hstep.trans (ih.cons a)

/-! ### upload_folder (orthanc_helper.py lines 42-74) -/

/-- Outcome of a run of `upload_folder`, given the list of files the
recursive `os.walk` discovered.  `workerFiles` are the per-thread
sublists `dicom_files[i::threads_no]`; each worker issues one
`post_instances` call per file of its sublist, so the total number of
upload calls is the sum of the sublists' lengths; `reportedTotal` is
the count printed at the end (`len(dicom_files)`). -/
structure UploadRun where
  workerFiles : List (List String)
  uploadCalls : Nat
  reportedTotal : Nat
deriving Repr, DecidableEq

/-- Embedding of `Server.upload_folder`: round-robin split of the
discovered files over `threads_no` workers. -/
def upload_folder (dicom_files : List String) (threads_no : Nat) : UploadRun :=
  let workers := slices dicom_files threads_no
  { workerFiles := workers
    uploadCalls := (workers.map List.length).sum
    reportedTotal := dicom_files.length }

/-- C1: for every discovered file list of length k and every worker
count n >= 1, `upload_folder` issues exactly k upload calls, and the n
per-worker sublists are pairwise disjoint with union exactly the full
file list (no duplicates, no omissions): their concatenation is a
permutation of the input. -/
theorem upload_folder_round_robin (dicom_files : List String) (n : Nat)
    (hn : 1 ≤ n) (hnd : dicom_files.Nodup) :
    (upload_folder dicom_files n).uploadCalls = dicom_files.length ∧
    (upload_folder dicom_files n).workerFiles.flatten.Perm dicom_files ∧
    (upload_folder dicom_files n).workerFiles.Pairwise List.Disjoint := by
  obtain ⟨m, rfl⟩ : ∃ m, n = m + 1 := ⟨n - 1, by omega⟩
  have hperm := slices_flatten_perm m dicom_files
  refine ⟨?_, hperm, ?_⟩
  · have hlen := hperm.length_eq
    simpa [upload_folder, List.length_flatten] using hlen
  · have hnodup : (slices dicom_files (m + 1)).flatten.Nodup :=
      (hperm.nodup_iff).mpr hnd
    exact (List.nodup_flatten.mp hnodup).2

/-- Witness for C1 at a concrete folder of three files and two workers. -/
theorem upload_folder_round_robin_witness :
    (1 ≤ 2 ∧ (["a", "b", "c"] : List String).Nodup) ∧
    ((upload_folder ["a", "b", "c"] 2).uploadCalls = 3 ∧
      (upload_folder ["a", "b", "c"] 2).workerFiles.flatten.Perm ["a", "b", "c"] ∧
      (upload_folder ["a", "b", "c"] 2).workerFiles.Pairwise List.Disjoint) := by
  refine ⟨⟨by decide, by decide⟩, ?_⟩
  simpa using upload_folder_round_robin ["a", "b", "c"] 2 (by decide) (by decide)

/-! ### Server state, errors, study lookup -/

/-- One study stored on the Orthanc server: the DICOM tags the wrapper
reads (PatientName, StudyDate, StudyTime) and the bytes returned by
the study zip export. -/
structure StudyInfo where
  patientName : String
  studyDate : String
  studyTime : String
  zipBytes : List Nat
deriving Repr, DecidableEq

/-- The remote Orthanc server: stored studies keyed by id, plus a
fresh-id counter used when the server creates a new (anonymized)
study. -/
structure ServerState where
  studies : List (Nat × StudyInfo)
  nextId : Nat
deriving Repr, DecidableEq

/-- Errors surfaced by the remote client, as classified by the spec:
`notFound` for an unknown study/query id (HTTP 404), `connectionError`
for an unreachable peer, `indexOut` for an out-of-range selection. -/
inductive OrthancErr where
  | notFound (id : Nat)
  | connectionError
  | indexOut (n : Nat)
deriving Repr, DecidableEq

/-- Association-list lookup of a study by id. -/
def lookupStudy (s : ServerState) (id : Nat) : Option StudyInfo :=
  s.studies.lookup id

/-- Embedding of `get_study_information` (pyorthanc call): the study's
tags, or a 404 for an unknown id. -/
def get_study_information (s : ServerState) (id : Nat) : Except OrthancErr StudyInfo :=
  match lookupStudy s id with
  | some info => .ok info
  | none => .error (.notFound id)

/-! ### Patient-name normalization and get_study_details (lines 76-97) -/

/-- Model of Python `s.rstrip(c)` for a one-character strip set. -/
def pyRstrip (c : Char) (l : List Char) : List Char :=
  (l.reverse.dropWhile (fun x => x = c)).reverse

/-- Model of Python `s.replace(a, b)` for one-character pattern and
replacement. -/
def pyReplaceChar (a b : Char) (l : List Char) : List Char :=
  l.map (fun x => if x = a then b else x)

/-- The name normalization of `get_study_details`:
`p_name.rstrip("^").replace("^", "_")`. -/
def normalizePatientName (s : String) : String :=
  String.mk (pyReplaceChar '^' '_' (pyRstrip '^' s.toList))

/-- Removal of the longest trailing run of DICOM name separators,
written from the spec's words (trimmed of trailing separators) by
structural recursion, to be compared with the code's rstrip. -/
def stripTrailingSeparators : List Char → List Char
  | [] => []
  | c :: cs =>
    match stripTrailingSeparators cs with
    | [] => if c = '^' then [] else [c]
    | r => c :: r

/-- The spec's normalization invariant: the patient name trimmed of
trailing separators, every remaining separator replaced by an
underscore. -/
def specNormalizeName (s : String) : String :=
  String.mk ((stripTrailingSeparators s.toList).map (fun c => if c = '^' then '_' else c))

/-- Embedding of `get_study_details`: normalized patient name, study
time, study date. -/
def get_study_details (s : ServerState) (id : Nat) :
    Except OrthancErr (String × String × String) :=
  match get_study_information s id with
  | .error e => .error e
  | .ok info => .ok (normalizePatientName info.patientName, info.studyTime, info.studyDate)

theorem stripTrailingSeparators_append_sep (l : List Char) :
    stripTrailingSeparators (l ++ ['^']) = stripTrailingSeparators l := by
  induction l with
  | nil => simp [stripTrailingSeparators]
  | cons c cs ih =>
    simp only [List.cons_append, stripTrailingSeparators, List.append_eq]
    rw [ih]

theorem stripTrailingSeparators_append_of_ne (c : Char) (hc : ¬ c = '^') (l : List Char) :
    stripTrailingSeparators (l ++ [c]) = l ++ [c] := by
  induction l with
  | nil => simp [stripTrailingSeparators, hc]
  | cons d ds ih =>
    simp only [List.cons_append, stripTrailingSeparators, List.append_eq]
    rw [ih]
    cases hds : ds ++ [c] with
    | nil => exact absurd hds (by simp)
    | cons x xs => simp

/-- The code's `rstrip("^")` agrees with the spec's trailing-separator
trim. -/
theorem pyRstrip_eq_stripTrailingSeparators (l : List Char) :
    pyRstrip '^' l = stripTrailingSeparators l := by
  induction l using List.reverseRecOn with
  | nil => simp [pyRstrip, stripTrailingSeparators]
  | append_singleton l c ih =>
    by_cases hc : c = '^'
    · subst hc
      rw [stripTrailingSeparators_append_sep, ← ih]
      simp [pyRstrip]
    · rw [stripTrailingSeparators_append_of_ne c hc]
      simp [pyRstrip, hc]

/-- C3: for every study on the server, `get_study_details` returns the
patient name with trailing separators stripped and every remaining
separator replaced by an underscore (the spec's normalization); in
particular a PatientName of Smith^John yields Smith_John. -/
theorem get_study_details_normalizes_name (s : ServerState) (id : Nat)
    (info : StudyInfo) (h : lookupStudy s id = some info) :
    get_study_details s id =
      .ok (specNormalizeName info.patientName, info.studyTime, info.studyDate) ∧
    (info.patientName = "Smith^John" →
      get_study_details s id = .ok ("Smith_John", info.studyTime, info.studyDate)) := by
  have hdet : get_study_details s id =
      .ok (specNormalizeName info.patientName, info.studyTime, info.studyDate) := by
    simp only [get_study_details, get_study_information, h]
    simp [normalizePatientName, specNormalizeName,
      pyRstrip_eq_stripTrailingSeparators, pyReplaceChar]
  refine ⟨hdet, fun hname => ?_⟩
  rw [hdet, hname]
  have : specNormalizeName "Smith^John" = "Smith_John" := by decide
  rw [this]

/-- Witness for C3 at a concrete server holding one Smith^John study. -/
theorem get_study_details_normalizes_name_witness :
    (lookupStudy ⟨[(0, ⟨"Smith^John", "20200101", "120000", [1, 2]⟩)], 1⟩ 0 =
      some ⟨"Smith^John", "20200101", "120000", [1, 2]⟩) ∧
    get_study_details ⟨[(0, ⟨"Smith^John", "20200101", "120000", [1, 2]⟩)], 1⟩ 0 =
      .ok ("Smith_John", "120000", "20200101") := by
  refine ⟨by decide, ?_⟩
  exact (get_study_details_normalizes_name
    ⟨[(0, ⟨"Smith^John", "20200101", "120000", [1, 2]⟩)], 1⟩ 0
    ⟨"Smith^John", "20200101", "120000", [1, 2]⟩ (by decide)).2 rfl

/-! ### date_modality_to_server (lines 99-147)

The remote side of this operation (the modality query, its answer
list, each answer's content, the per-answer move to the target AE) is
a sequence of independent remote calls; it is modelled by an oracle
giving the outcome of each call.  Each worker thread of the Python
code processes its round-robin share of the answers; an exception
raised inside a worker kills only that thread (Python prints the
traceback via the default threading excepthook and the main thread
still joins), so a worker's first error is recorded as swallowed, not
propagated. -/

/-- Outcomes of the remote calls made by `date_modality_to_server` for
one fixed (modality, date, target server) triple: `queryResult` is
`query_on_modality` (yielding the query ID), `queryAnswers` is
`get_query_answers`, `answerName` is the PatientName tag 0010,0010 of
`get_content_of_specified_query_answer`, and `moveResult` is
`send_resource_to_other_modality`. -/
structure ModalityOracle where
  queryResult : Except OrthancErr Nat
  queryAnswers : Nat → Except OrthancErr (List Nat)
  answerName : Nat → Nat → Except OrthancErr String
  moveResult : Nat → Nat → Except OrthancErr Unit

/-- Console and network events of one download worker. -/
inductive MoveEvent where
  | printed (name : String)
  | moved (index : Nat)
deriving Repr, DecidableEq

/-- What one worker thread did: its events in order, and the error
that killed it (swallowed by the thread boundary), if any. -/
structure WorkerRun where
  events : List MoveEvent
  swallowed : Option OrthancErr
deriving Repr, DecidableEq

/-- One worker thread of `date_modality_to_server`: for each answer
index of its share, fetch the patient name, print it, move the
resource; the first error aborts the rest of this worker's share. -/
def runMoveWorker (o : ModalityOracle) (qid : Nat) : List Nat → WorkerRun
  | [] => ⟨[], none⟩
  | index :: rest =>
    match o.answerName qid index with
    | .error e => ⟨[], some e⟩
    | .ok name =>
      match o.moveResult qid index with
      | .error e => ⟨[.printed name], some e⟩
      | .ok _ =>
        let r := runMoveWorker o qid rest
        ⟨.printed name :: .moved index :: r.events, r.swallowed⟩

/-- Embedding of `date_modality_to_server`: query the modality, fetch
the answer list (both errors propagate), then fan the answers out
round-robin over `threads_no` workers and join them; worker errors
never propagate. -/
def date_modality_to_server (o : ModalityOracle) (threads_no : Nat) :
    Except OrthancErr (List WorkerRun) := do
  let qid ← o.queryResult
  let ans ← o.queryAnswers qid
  .ok ((List.range threads_no).map (fun i => runMoveWorker o qid (pySlice ans i threads_no)))

/-- The claim C2 as stated: the only error the component ever swallows
is a connection error from a per-answer move. -/
def onlyConnectionErrorsSwallowed : Prop :=
  ∀ (o : ModalityOracle) (n : Nat) (runs : List WorkerRun),
    date_modality_to_server o n = .ok runs →
    ∀ r ∈ runs, ∀ e, r.swallowed = some e → e = OrthancErr.connectionError

/-- Oracle refuting C2 as stated: fetching the content of answer 0
fails with a 404, which the worker thread swallows just as it would a
connection error. -/
def badContentOracle : ModalityOracle :=
  { queryResult := .ok 7
    queryAnswers := fun _ => .ok [0]
    answerName := fun _ _ => .error (.notFound 0)
    moveResult := fun _ _ => .ok () }

/-- C2 counterexample: it is not true that the only error
`date_modality_to_server` swallows is a connection error of a move;
with `badContentOracle` the run succeeds while a worker swallowed a
`notFound` error raised when fetching an answer's content. -/
theorem date_modality_only_connection_swallowed_false :
    ¬ onlyConnectionErrorsSwallowed := by
  intro h
  have hrun : date_modality_to_server badContentOracle 1 =
      .ok [⟨[], some (.notFound 0)⟩] := by
    simp [date_modality_to_server, badContentOracle, runMoveWorker, pySlice,
      everyNth_cons, everyNth_nil, List.range_succ, Bind.bind, Except.bind]
  have := h badContentOracle 1 [⟨[], some (.notFound 0)⟩] hrun
    ⟨[], some (.notFound 0)⟩ (by simp) (.notFound 0) rfl
  exact absurd this (by simp)

/-- C2 amended: every error raised inside a download worker — whether
fetching an answer's content or moving it to the target AE, a
connection error or any other — is reported and swallowed at the
thread boundary rather than propagated: whenever the modality query
and the answer retrieval succeed, the call returns ok with each
worker's first error recorded in its run, and the remaining workers'
shares are unaffected; errors of the query or of the answer retrieval
themselves propagate to the caller. -/
theorem date_modality_worker_errors_swallowed (o : ModalityOracle) (n : Nat) :
    (∀ qid ans, o.queryResult = .ok qid → o.queryAnswers qid = .ok ans →
      date_modality_to_server o n =
        .ok ((List.range n).map (fun i => runMoveWorker o qid (pySlice ans i n)))) ∧
    (∀ e, o.queryResult = .error e → date_modality_to_server o n = .error e) ∧
    (∀ qid e, o.queryResult = .ok qid → o.queryAnswers qid = .error e →
      date_modality_to_server o n = .error e) := by
  refine ⟨?_, ?_, ?_⟩
  · intro qid ans hq ha
    simp [date_modality_to_server, Bind.bind, Except.bind, hq, ha]
  · intro e hq
    simp [date_modality_to_server, Bind.bind, Except.bind, hq]
  · intro qid e hq ha
    simp [date_modality_to_server, Bind.bind, Except.bind, hq, ha]

/-- Oracle for the C2 witness: two answers; the move of answer 1 fails
with a connection error while answer 0 is processed normally by the
sibling worker. -/
def connFailOracle : ModalityOracle :=
  { queryResult := .ok 7
    queryAnswers := fun _ => .ok [0, 1]
    answerName := fun _ index => .ok (if index = 0 then "A" else "B")
    moveResult := fun _ index => if index = 0 then .ok () else .error .connectionError }

/-- Witness for the amended C2 at a concrete oracle: the connection
error of worker 1's move is swallowed and recorded while worker 0
completed its move, and the call as a whole succeeds. -/
theorem date_modality_worker_errors_swallowed_witness :
    date_modality_to_server connFailOracle 2 =
      .ok [⟨[.printed "A", .moved 0], none⟩, ⟨[.printed "B"], some .connectionError⟩] := by
  have h := (date_modality_worker_errors_swallowed connFailOracle 2).1 7 [0, 1] rfl rfl
  rw [h]
  simp [connFailOracle, runMoveWorker, pySlice, everyNth_cons, everyNth_nil,
    List.range_succ]

/-! ### date_server_to_local / date_range_server_to_local (lines 169-229) -/

/-- Model of `os.path.join` for the paths the wrapper builds. -/
def joinPath (a b : String) : String := a ++ "/" ++ b

/-- Modelled from the spec: the remote archive's matching of the
StudyDate query field, which accepts a single date or the range syntax
from-to directly (the server, not the wrapper, interprets it). -/
def dateQueryMatches (query d : String) : Bool :=
  match query.splitOn "-" with
  | [a, b] => decide (a ≤ d) && decide (d ≤ b)
  | _ => query == d

/-- Embedding of the `c_find` call of `date_server_to_local` and
`delete_on_date`: ids of the studies whose StudyDate matches the date
query. -/
def c_find_date (s : ServerState) (date : String) : List Nat :=
  (s.studies.filter (fun p => dateQueryMatches date p.2.studyDate)).map Prod.fst

/-- Observable events of a local download run: the c-find query sent,
each zip file written (path and bytes), and console prints. -/
inductive DlEvent where
  | cFindQuery (date : String)
  | fileWrite (path : String) (bytes : List Nat)
  | printed (msg : String)
deriving Repr, DecidableEq

/-- One worker thread of `date_server_to_local`: for each study id of
its share, resolve details, print, and write the study zip to
downloadPath; a 404 inside the worker kills the thread silently. -/
def runDlWorker (s : ServerState) (download_path : String) : List Nat → List DlEvent
  | [] => []
  | id :: rest =>
    match lookupStudy s id with
    | none => []
    | some info =>
      let pn := normalizePatientName info.patientName
      let file_name := pn ++ "_" ++ info.studyTime ++ ".zip"
      .printed ("Downloading " ++ file_name ++ ".") ::
        .fileWrite (joinPath download_path file_name) info.zipBytes ::
          runDlWorker s download_path rest

/-- Embedding of `date_server_to_local`: c-find the date, split the
resulting ids round-robin over `threads_no` workers, join, print the
total. -/
def date_server_to_local (s : ServerState) (date download_path : String)
    (threads_no : Nat) : List DlEvent :=
  let studies_ids := c_find_date s date
  DlEvent.cFindQuery date ::
    ((List.range threads_no).map
        (fun i => runDlWorker s download_path (pySlice studies_ids i threads_no))).flatten ++
      [DlEvent.printed ("Finished downloading " ++ toString studies_ids.length ++ " studies.")]

/-- Embedding of `date_range_server_to_local`: delegates to
`date_server_to_local` on the composed date string, with the
single-date call's default worker count 2 (`thread_no` is accepted
but not forwarded, as in the source), then prints one more line. -/
def date_range_server_to_local (s : ServerState) (from_date to_date download_path : String)
    (thread_no : Nat) : List DlEvent :=
  date_server_to_local s (from_date ++ "-" ++ to_date) download_path 2 ++
    [DlEvent.printed ("Finished downloading all studies between " ++ from_date ++
      " and " ++ to_date ++ " to " ++ download_path ++ ".")]

/-- Non-console effects of a download run: the queries issued and the
files written, prints dropped. -/
def observableEffects (t : List DlEvent) : List DlEvent :=
  t.filter (fun e =>
    match e with
    | .printed _ => false
    | _ => true)

/-- C4: the date-range download is observationally equivalent to the
single-date download given the composed string from-to: same query,
same downloads, same file writes. -/
theorem date_range_equiv_single_date (s : ServerState)
    (from_date to_date download_path : String) :
    observableEffects (date_range_server_to_local s from_date to_date download_path 2) =
      observableEffects
        (date_server_to_local s (from_date ++ "-" ++ to_date) download_path 2) := by
  simp [date_range_server_to_local, observableEffects, List.filter_append]

/-- C9: the result of `date_range_server_to_local` is independent of
its `thread_no` argument, and the delegated single-date call always
runs with the default worker count 2, because `thread_no` is not
forwarded. -/
theorem date_range_thread_no_unused (s : ServerState)
    (from_date to_date download_path : String) (n₁ n₂ : Nat) :
    date_range_server_to_local s from_date to_date download_path n₁ =
      date_range_server_to_local s from_date to_date download_path n₂ ∧
    date_range_server_to_local s from_date to_date download_path n₁ =
      date_server_to_local s (from_date ++ "-" ++ to_date) download_path 2 ++
        [DlEvent.printed ("Finished downloading all studies between " ++ from_date ++
          " and " ++ to_date ++ " to " ++ download_path ++ ".")] :=
  ⟨rfl, rfl⟩

/-! ### delete_all_studies (lines 328-340) -/

/-- Embedding of the Orthanc `delete_study` call: removes the study
with the given id from the server. -/
def delete_study (s : ServerState) (id : Nat) : ServerState :=
  { s with studies := s.studies.filter (fun p => p.1 != id) }

/-- Console and network events of `delete_all_studies`. -/
inductive DelEvent where
  | printedWarning
  | inputRead
  | deleteCall (id : Nat)
  | printed (msg : String)
deriving Repr, DecidableEq

/-- The deletion loop of `delete_all_studies`: deletes each enumerated
id in order, printing the countdown after each deletion. -/
def deleteAllLoop (s : ServerState) (toDelete : Nat) : List Nat → List DelEvent × ServerState
  | [] => ([], s)
  | id :: rest =>
    let s₁ := delete_study s id
    let r := deleteAllLoop s₁ (toDelete - 1) rest
    (DelEvent.deleteCall id ::
        DelEvent.printed ("Deleted " ++ toString id ++ ". Left " ++
          toString (toDelete - 1) ++ " to delete.") :: r.1,
      r.2)

/-- Embedding of `delete_all_studies`: prints a warning, blocks on an
interactive `input()` read, enumerates every study id and deletes each
sequentially. -/
def delete_all_studies (s : ServerState) : List DelEvent × ServerState :=
  let studies := s.studies.map Prod.fst
  let r := deleteAllLoop s studies.length studies
  (DelEvent.printedWarning :: DelEvent.inputRead ::
      r.1 ++ [DelEvent.printed "Deleted everything."],
    r.2)

/-- Recognizer of delete calls in a trace. -/
def isDeleteCall : DelEvent → Bool
  | .deleteCall _ => true
  | _ => false

theorem deleteAllLoop_clears (ids : List Nat) :
    ∀ (s : ServerState) (toDelete : Nat), s.studies.map Prod.fst = ids → ids.Nodup →
      (deleteAllLoop s toDelete ids).2.studies = [] ∧
      (deleteAllLoop s toDelete ids).1.countP isDeleteCall = ids.length := by
  induction ids with
  | nil =>
    intro s toDelete hmap _
    have : s.studies = [] := by simpa using congrArg List.length hmap
    simp [deleteAllLoop, this]
  | cons id rest ih =>
    intro s toDelete hmap hnd
    obtain ⟨p, t, hs, hp, ht⟩ := List.map_eq_cons_iff.mp hmap
    have hid : id ∉ rest := (List.nodup_cons.mp hnd).1
    have hdel : (delete_study s id).studies = t := by
      have h1 : (delete_study s id).studies = (p :: t).filter (fun q => q.1 != id) := by
        simp [delete_study, hs]
      rw [h1, List.filter_cons, hp]
      simp only [bne_self_eq_false, Bool.false_eq_true, if_false]
      refine List.filter_eq_self.mpr (fun q hq => ?_)
      have hmem : q.1 ∈ rest := ht ▸ List.mem_map_of_mem Prod.fst hq
      simp only [bne_iff_ne, ne_eq]
      intro hcontra
      exact hid (hcontra ▸ hmem)
    have hmap' : (delete_study s id).studies.map Prod.fst = rest := by rw [hdel, ht]
    have hrec := ih (delete_study s id) (toDelete - 1) hmap' (List.nodup_cons.mp hnd).2
    refine ⟨?_, ?_⟩
    · simpa [deleteAllLoop] using hrec.1
    · simp [deleteAllLoop, List.countP_cons, isDeleteCall, hrec.2]

/-- C5: when the server holds m studies (with distinct ids),
`delete_all_studies` issues exactly m delete calls and the final
server state holds no studies. -/
theorem delete_all_studies_deletes_everything (s : ServerState)
    (hnd : (s.studies.map Prod.fst).Nodup) :
    (delete_all_studies s).1.countP isDeleteCall = s.studies.length ∧
    (delete_all_studies s).2.studies = [] := by
  have h := deleteAllLoop_clears (s.studies.map Prod.fst) s
    (s.studies.map Prod.fst).length rfl hnd
  constructor
  · simp only [delete_all_studies, List.countP_cons, isDeleteCall,
      List.countP_append]
    simpa [List.countP_append, isDeleteCall] using h.2
  · simpa [delete_all_studies] using h.1

/-- Witness for C5 at a concrete server holding two studies. -/
theorem delete_all_studies_deletes_everything_witness :
    ((([(3, ⟨"A", "d", "t", [1]⟩), (5, ⟨"B", "d", "t", [2]⟩)] :
        List (Nat × StudyInfo)).map Prod.fst).Nodup) ∧
    ((delete_all_studies ⟨[(3, ⟨"A", "d", "t", [1]⟩), (5, ⟨"B", "d", "t", [2]⟩)], 9⟩).1.countP
        isDeleteCall = 2 ∧
      (delete_all_studies ⟨[(3, ⟨"A", "d", "t", [1]⟩), (5, ⟨"B", "d", "t", [2]⟩)], 9⟩).2.studies
        = []) := by
  refine ⟨by decide, ?_⟩
  exact delete_all_studies_deletes_everything
    ⟨[(3, ⟨"A", "d", "t", [1]⟩), (5, ⟨"B", "d", "t", [2]⟩)], 9⟩ (by decide)

/-- C6 counterexample: `delete_all_studies` does perform a blocking
interactive read — its trace contains the `input()` event even on an
empty server — so it does not take a caller-supplied confirmation flag
in place of interactive input. -/
theorem delete_all_studies_reads_input :
    DelEvent.inputRead ∈ (delete_all_studies ⟨[], 0⟩).1 := by
  decide

/-- C6 amended: `delete_all_studies` takes no confirmation parameter;
every run starts with a warning print followed by a blocking
interactive read, and all delete calls happen only after that read. -/
theorem delete_all_studies_interactive (s : ServerState) :
    ∃ rest, (delete_all_studies s).1 =
      DelEvent.printedWarning :: DelEvent.inputRead :: rest :=
  ⟨_, rfl⟩

/-! ### Server construction and load_credentials (lines 9-40) -/

/-- The server section of config.json, each field possibly absent. -/
structure ServerSection where
  url : Option String
  username : Option String
  password : Option String
deriving Repr, DecidableEq

/-- The config.json document: the server object, possibly absent. -/
structure ConfigFile where
  server : Option ServerSection
deriving Repr, DecidableEq

/-- Failures of credential loading, the spec's ConfigError taxonomy:
the config file is missing (FileNotFoundError on open) or a required
field is absent (KeyError on subscript). -/
inductive ConfigError where
  | fileMissing
  | fieldAbsent (field : String)
deriving Repr, DecidableEq

/-- Credentials held by a constructed Server: the username and
password stay optional when passed explicitly, exactly as the Python
constructor forwards them. -/
structure Credentials where
  url : String
  username : Option String
  password : Option String
deriving Repr, DecidableEq

/-- Events of Server construction. -/
inductive CfgEvent where
  | configRead
deriving Repr, DecidableEq

/-- Embedding of `Server.load_credentials`: opens config.json (missing
file fails), then reads data server url, data server username,
data server password in that order, failing on the first absent
field. -/
def load_credentials (file : Option ConfigFile) : Except ConfigError Credentials :=
  match file with
  | none => .error .fileMissing
  | some data =>
    match data.server with
    | none => .error (.fieldAbsent "server")
    | some sec =>
      match sec.url with
      | none => .error (.fieldAbsent "url")
      | some u =>
        match sec.username with
        | none => .error (.fieldAbsent "username")
        | some un =>
          match sec.password with
          | none => .error (.fieldAbsent "password")
          | some pw => .ok ⟨u, some un, some pw⟩

/-- Python truthiness of the `server_url` argument: `None` and the
empty string are falsy (`if not server_url:`). -/
def urlFalsy : Option String → Bool
  | none => true
  | some u => u.isEmpty

/-- Embedding of `Server.__init__`: when `server_url` is falsy the
credentials are loaded from the config file (one read, recorded as a
`configRead` event); otherwise the explicit arguments are used
unchanged and the config file is never touched. -/
def serverInit (server_url username password : Option String) (file : Option ConfigFile) :
    List CfgEvent × Except ConfigError Credentials :=
  if urlFalsy server_url then
    ([CfgEvent.configRead], load_credentials file)
  else
    ([], .ok ⟨server_url.getD "", username, password⟩)

/-- C7: when explicit credentials are not supplied, Server
construction reads the config file exactly once, and fails with a
ConfigError when the file is missing or any of server.url,
server.username, server.password is absent. -/
theorem server_init_config_loading (username password : Option String)
    (file : Option ConfigFile) :
    ((serverInit none username password file).1.count CfgEvent.configRead = 1) ∧
    (file = none →
      (serverInit none username password file).2 = .error .fileMissing) ∧
    (∀ data, file = some data → data.server = none →
      (serverInit none username password file).2 = .error (.fieldAbsent "server")) ∧
    (∀ data sec, file = some data → data.server = some sec →
      (sec.url = none ∨ sec.username = none ∨ sec.password = none) →
      ∃ e, (serverInit none username password file).2 = .error e) := by
  refine ⟨by simp [serverInit, urlFalsy], ?_, ?_, ?_⟩
  · intro hf
    simp [serverInit, urlFalsy, hf, load_credentials]
  · intro data hf hs
    simp [serverInit, urlFalsy, hf, load_credentials, hs]
  · intro data sec hf hs habs
    simp only [serverInit, urlFalsy, if_true, load_credentials, hf, hs]
    rcases habs with hu | hun | hpw
    · exact ⟨.fieldAbsent "url", by simp [hu]⟩
    · cases hurl : sec.url with
      | none => exact ⟨.fieldAbsent "url", by simp [hurl]⟩
      | some u => exact ⟨.fieldAbsent "username", by simp [hurl, hun]⟩
    · cases hurl : sec.url with
      | none => exact ⟨.fieldAbsent "url", by simp [hurl]⟩
      | some u =>
        cases hun : sec.username with
        | none => exact ⟨.fieldAbsent "username", by simp [hurl, hun]⟩
        | some un => exact ⟨.fieldAbsent "password", by simp [hurl, hun, hpw]⟩

/-- Witness for C7 at a concrete config file whose server section
lacks the username field. -/
theorem server_init_config_loading_witness :
    ((serverInit none none none
        (some ⟨some ⟨some "http://localhost", none, some "pw"⟩⟩)).1.count
      CfgEvent.configRead = 1) ∧
    (∃ e, (serverInit none none none
        (some ⟨some ⟨some "http://localhost", none, some "pw"⟩⟩)).2 = .error e) := by
  refine ⟨(server_init_config_loading none none
    (some ⟨some ⟨some "http://localhost", none, some "pw"⟩⟩)).1, ?_⟩
  exact (server_init_config_loading none none
    (some ⟨some ⟨some "http://localhost", none, some "pw"⟩⟩)).2.2.2
    ⟨some ⟨some "http://localhost", none, some "pw"⟩⟩
    ⟨some "http://localhost", none, some "pw"⟩ rfl rfl (Or.inr (Or.inl rfl))

/-! ### anon_study_server_to_local (lines 288-326) -/

/-- Whether `pat` occurs at the start of `hay` (helper for substring
matching). -/
def matchesAt : List Char → List Char → Bool
  | [], _ => true
  | _ :: _, [] => false
  | p :: ps, c :: cs => p == c && matchesAt ps cs

/-- Whether `pat` occurs somewhere inside `hay` (helper for the
wildcard match). -/
def containsSeq (pat : List Char) : List Char → Bool
  | [] => pat.isEmpty
  | c :: cs => matchesAt pat (c :: cs) || containsSeq pat cs

/-- Modelled from the spec: the remote archive's matching of the
wildcarded PatientName query the wrapper sends (the pattern framed by
asterisks on both sides), i.e. a substring match performed by the
server. -/
def c_find_patient (s : ServerState) (patient_name : String) : List Nat :=
  (s.studies.filter
      (fun p => containsSeq patient_name.toList p.2.patientName.toList)).map Prod.fst

/-- The de-identified copy created by the server for
`anonymize_study`: same study content under a scrubbed patient name
and a fresh id (modelled from the spec: anonymization is a server-side
de-identified copy with a new id). -/
def anonymizeInfo (info : StudyInfo) : StudyInfo :=
  { patientName := "Anonymized"
    studyDate := info.studyDate
    studyTime := info.studyTime
    zipBytes := info.zipBytes }

/-- Embedding of the `anonymize_study` call: creates the anonymized
copy under the fresh id and returns that id (the `ID` field of the
response), or a 404 for an unknown source id. -/
def anonymize_study (s : ServerState) (id : Nat) : Except OrthancErr (ServerState × Nat) :=
  match lookupStudy s id with
  | none => .error (.notFound id)
  | some info =>
    .ok ({ studies := s.studies ++ [(s.nextId, anonymizeInfo info)],
           nextId := s.nextId + 1 },
      s.nextId)

/-- Embedding of the `get_study_zip_file` call. -/
def get_study_zip_file (s : ServerState) (id : Nat) : Except OrthancErr (List Nat) :=
  match lookupStudy s id with
  | none => .error (.notFound id)
  | some info => .ok info.zipBytes

/-- The local filesystem: an association list from paths to file
contents. -/
def FileSystem : Type := List (String × List Nat)

/-- Writing a file: the new content shadows any previous file at the
same path. -/
def fsWrite (fs : FileSystem) (path : String) (bytes : List Nat) : FileSystem :=
  (path, bytes) :: fs

/-- Reading a file back. -/
def fsRead (fs : FileSystem) (path : String) : Option (List Nat) :=
  List.lookup path fs

/-- The detail listing `anon_study_server_to_local` builds before the
selection: `get_study_details` for each found id, the first failure
propagating. -/
def detailsAll (s : ServerState) : List Nat → Except OrthancErr (List (String × String × String))
  | [] => .ok []
  | id :: rest =>
    match get_study_details s id with
    | .error e => .error e
    | .ok d =>
      match detailsAll s rest with
      | .error e => .error e
      | .ok ds => .ok (d :: ds)

/-- Embedding of `anon_study_server_to_local`: find the studies whose
PatientName contains `patient_name`, list their details, take the
externally supplied selection (the `int(input(...))` read), anonymize
the selected study, download the anonymized copy to the fixed filename
Anonymized_patient under `download_path`, and delete the anonymized
copy from the server.  Returns the final server state, the final
filesystem, and the anonymized copy's id. -/
def anon_study_server_to_local (s : ServerState) (fs : FileSystem)
    (patient_name download_path : String) (choice : Nat) :
    Except OrthancErr (ServerState × FileSystem × Nat) :=
  let studies_ids := c_find_patient s patient_name
  match detailsAll s studies_ids with
  | .error e => .error e
  | .ok _ =>
    match studies_ids[choice]? with
    | none => .error (.indexOut choice)
    | some target_id =>
      match anonymize_study s target_id with
      | .error e => .error e
      | .ok (s₁, anon_id) =>
        match get_study_zip_file s₁ anon_id with
        | .error e => .error e
        | .ok bytes =>
          let fs₁ := fsWrite fs (joinPath download_path "Anonymized_patient") bytes
          let s₂ := delete_study s₁ anon_id
          .ok (s₂, fs₁, anon_id)

/-- Well-formedness of the modelled server: distinct study ids, all
below the fresh-id counter. -/
def WFServer (s : ServerState) : Prop :=
  (s.studies.map Prod.fst).Nodup ∧ ∀ p ∈ s.studies, p.1 < s.nextId

theorem lookup_eq_none_of_not_mem {β : Type} (l : List (Nat × β)) (k : Nat)
    (h : k ∉ l.map Prod.fst) : l.lookup k = none := by
  induction l with
  | nil => rfl
  | cons p t ih =>
    simp only [List.map_cons, List.mem_cons, not_or] at h
    cases p with
    | mk a b =>
      have hne : (k == a) = false := by
        simpa using h.1
      simp [List.lookup, hne, ih h.2]

theorem lookup_append_of_not_mem {β : Type} (l₁ l₂ : List (Nat × β)) (k : Nat)
    (h : k ∉ l₁.map Prod.fst) : (l₁ ++ l₂).lookup k = l₂.lookup k := by
  induction l₁ with
  | nil => rfl
  | cons p t ih =>
    simp only [List.map_cons, List.mem_cons, not_or] at h
    cases p with
    | mk a b =>
      have hne : (k == a) = false := by
        simpa using h.1
      simp [List.lookup, hne, ih h.2]

theorem lookup_some_of_mem {β : Type} (l : List (Nat × β)) (k : Nat)
    (h : k ∈ l.map Prod.fst) : ∃ v, l.lookup k = some v := by
  induction l with
  | nil => simp at h
  | cons p t ih =>
    cases p with
    | mk a b =>
      by_cases hk : k = a
      · exact ⟨b, by simp [List.lookup, hk]⟩
      · have hne : (k == a) = false := by simpa using hk
        have hmem : k ∈ t.map Prod.fst := by
          simpa [hk] using h
        obtain ⟨v, hv⟩ := ih hmem
        exact ⟨v, by simp [List.lookup, hne, hv]⟩

theorem filter_bne_of_lt (l : List (Nat × StudyInfo)) (nid : Nat)
    (h : ∀ p ∈ l, p.1 < nid) : l.filter (fun p => p.1 != nid) = l :=
  List.filter_eq_self.mpr fun p hp => by
    simpa [bne_iff_ne] using Nat.ne_of_lt (h p hp)

theorem c_find_patient_subset (s : ServerState) (patient_name : String) :
    ∀ id ∈ c_find_patient s patient_name, id ∈ s.studies.map Prod.fst := by
  intro id hid
  simp only [c_find_patient, List.mem_map] at hid
  obtain ⟨p, hp, rfl⟩ := hid
  exact List.mem_map_of_mem Prod.fst (List.mem_of_mem_filter hp)

theorem detailsAll_ok (s : ServerState) (ids : List Nat)
    (h : ∀ id ∈ ids, id ∈ s.studies.map Prod.fst) :
    ∃ ds, detailsAll s ids = .ok ds := by
  induction ids with
  | nil => exact ⟨[], rfl⟩
  | cons id rest ih =>
    obtain ⟨v, hv⟩ := lookup_some_of_mem s.studies id (h id (List.mem_cons_self id rest))
    obtain ⟨ds, hds⟩ := ih (fun i hi => h i (List.mem_cons_of_mem id hi))
    refine ⟨(normalizePatientName v.patientName, v.studyTime, v.studyDate) :: ds, ?_⟩
    simp [detailsAll, get_study_details, get_study_information, lookupStudy, hv, hds]

/-- The complete run of `anon_study_server_to_local` on a well-formed
server with a valid selection: the anonymized copy gets id
`s.nextId`, its zip bytes land in Anonymized_patient, and the final
server state is the original study list with the counter advanced. -/
theorem anon_study_run (s : ServerState) (fs : FileSystem)
    (patient_name download_path : String) (choice : Nat) (target : Nat) (info : StudyInfo)
    (hwf : WFServer s)
    (hsel : (c_find_patient s patient_name)[choice]? = some target)
    (hinfo : lookupStudy s target = some info) :
    anon_study_server_to_local s fs patient_name download_path choice =
      .ok (⟨s.studies, s.nextId + 1⟩,
        fsWrite fs (joinPath download_path "Anonymized_patient")
          (anonymizeInfo info).zipBytes,
        s.nextId) := by
  have hfresh : s.nextId ∉ s.studies.map Prod.fst := by
    intro hmem
    simp only [List.mem_map] at hmem
    obtain ⟨p, hp, hfst⟩ := hmem
    exact absurd (hfst ▸ hwf.2 p hp) (lt_irrefl s.nextId)
  obtain ⟨ds, hds⟩ := detailsAll_ok s (c_find_patient s patient_name)
    (c_find_patient_subset s patient_name)
  have hanon : anonymize_study s target =
      .ok ({ studies := s.studies ++ [(s.nextId, anonymizeInfo info)],
             nextId := s.nextId + 1 }, s.nextId) := by
    simp [anonymize_study, hinfo]
  have hzip : get_study_zip_file
      ⟨s.studies ++ [(s.nextId, anonymizeInfo info)], s.nextId + 1⟩ s.nextId =
      .ok (anonymizeInfo info).zipBytes := by
    simp only [get_study_zip_file, lookupStudy]
    rw [lookup_append_of_not_mem s.studies _ s.nextId hfresh]
    simp [List.lookup]
  have hdel : delete_study
      ⟨s.studies ++ [(s.nextId, anonymizeInfo info)], s.nextId + 1⟩ s.nextId =
      ⟨s.studies, s.nextId + 1⟩ := by
    simp only [delete_study, List.filter_append]
    rw [filter_bne_of_lt s.studies s.nextId (hwf.2)]
    simp
  simp only [anon_study_server_to_local, hds, hsel, hanon, hzip, hdel]

/-- C8: after a run of `anon_study_server_to_local` with a valid
selection on a well-formed server, the anonymized copy no longer
exists on the server — a subsequent lookup of its id fails with a
NotFoundError — and a file named Anonymized_patient exists under the
download path holding the anonymized study's zip bytes. -/
theorem anon_study_postcondition (s : ServerState) (fs : FileSystem)
    (patient_name download_path : String) (choice : Nat) (target : Nat) (info : StudyInfo)
    (hwf : WFServer s)
    (hsel : (c_find_patient s patient_name)[choice]? = some target)
    (hinfo : lookupStudy s target = some info) :
    ∃ s₂ fs₁,
      anon_study_server_to_local s fs patient_name download_path choice =
        .ok (s₂, fs₁, s.nextId) ∧
      get_study_information s₂ s.nextId = .error (.notFound s.nextId) ∧
      fsRead fs₁ (joinPath download_path "Anonymized_patient") =
        some (anonymizeInfo info).zipBytes := by
  have hfresh : s.nextId ∉ s.studies.map Prod.fst := by
    intro hmem
    simp only [List.mem_map] at hmem
    obtain ⟨p, hp, hfst⟩ := hmem
    exact absurd (hfst ▸ hwf.2 p hp) (lt_irrefl s.nextId)
  refine ⟨⟨s.studies, s.nextId + 1⟩,
    fsWrite fs (joinPath download_path "Anonymized_patient") (anonymizeInfo info).zipBytes,
    anon_study_run s fs patient_name download_path choice target info hwf hsel hinfo,
    ?_, ?_⟩
  · simp only [get_study_information, lookupStudy]
    rw [lookup_eq_none_of_not_mem s.studies s.nextId hfresh]
  · simp [fsRead, fsWrite, List.lookup]

/-- Witness for C8 at a concrete one-study server. -/
theorem anon_study_postcondition_witness :
    (WFServer ⟨[(0, ⟨"Smith^John", "20200101", "120000", [7, 8]⟩)], 1⟩ ∧
      (c_find_patient ⟨[(0, ⟨"Smith^John", "20200101", "120000", [7, 8]⟩)], 1⟩
        "Smith")[0]? = some 0 ∧
      lookupStudy ⟨[(0, ⟨"Smith^John", "20200101", "120000", [7, 8]⟩)], 1⟩ 0 =
        some ⟨"Smith^John", "20200101", "120000", [7, 8]⟩) ∧
    (∃ s₂ fs₁,
      anon_study_server_to_local ⟨[(0, ⟨"Smith^John", "20200101", "120000", [7, 8]⟩)], 1⟩
          [] "Smith" "/downloads" 0 = .ok (s₂, fs₁, 1) ∧
      get_study_information s₂ 1 = .error (.notFound 1) ∧
      fsRead fs₁ (joinPath "/downloads" "Anonymized_patient") =
        some (anonymizeInfo ⟨"Smith^John", "20200101", "120000", [7, 8]⟩).zipBytes) := by
  refine ⟨⟨⟨by decide, by decide⟩, by decide, by decide⟩, ?_⟩
  exact anon_study_postcondition ⟨[(0, ⟨"Smith^John", "20200101", "120000", [7, 8]⟩)], 1⟩
    [] "Smith" "/downloads" 0 0 ⟨"Smith^John", "20200101", "120000", [7, 8]⟩
    ⟨by decide, by decide⟩ (by decide) (by decide)

/-- C10: `anon_study_server_to_local` deletes only the freshly
created anonymized copy — the final study list equals the initial one,
so the selected original study still exists and no other study was
deleted. -/
theorem anon_study_frame (s : ServerState) (fs : FileSystem)
    (patient_name download_path : String) (choice : Nat) (target : Nat)
    (hwf : WFServer s)
    (hsel : (c_find_patient s patient_name)[choice]? = some target) :
    ∃ s₂ fs₁,
      anon_study_server_to_local s fs patient_name download_path choice =
        .ok (s₂, fs₁, s.nextId) ∧
      s₂.studies = s.studies ∧
      target ∈ s₂.studies.map Prod.fst := by
  have hmem : target ∈ s.studies.map Prod.fst :=
    c_find_patient_subset s patient_name target
      (List.getElem?_mem hsel)
  obtain ⟨info, hinfo⟩ := lookup_some_of_mem s.studies target hmem
  exact ⟨⟨s.studies, s.nextId + 1⟩,
    fsWrite fs (joinPath download_path "Anonymized_patient") (anonymizeInfo info).zipBytes,
    anon_study_run s fs patient_name download_path choice target info hwf hsel hinfo,
    rfl, hmem⟩

/-- Witness for C10 at a concrete server holding two studies. -/
theorem anon_study_frame_witness :
    (WFServer ⟨[(0, ⟨"Doe^Jane", "20210101", "090000", [1]⟩),
        (1, ⟨"Roe^Rich", "20210202", "100000", [2]⟩)], 2⟩ ∧
      (c_find_patient ⟨[(0, ⟨"Doe^Jane", "20210101", "090000", [1]⟩),
        (1, ⟨"Roe^Rich", "20210202", "100000", [2]⟩)], 2⟩ "Doe")[0]? = some 0) ∧
    (∃ s₂ fs₁,
      anon_study_server_to_local ⟨[(0, ⟨"Doe^Jane", "20210101", "090000", [1]⟩),
          (1, ⟨"Roe^Rich", "20210202", "100000", [2]⟩)], 2⟩ [] "Doe" "/dl" 0 =
        .ok (s₂, fs₁, 2) ∧
      s₂.studies = [(0, ⟨"Doe^Jane", "20210101", "090000", [1]⟩),
          (1, ⟨"Roe^Rich", "20210202", "100000", [2]⟩)] ∧
      0 ∈ s₂.studies.map Prod.fst) := by
  refine ⟨⟨⟨by decide, by decide⟩, by decide⟩, ?_⟩
  exact anon_study_frame ⟨[(0, ⟨"Doe^Jane", "20210101", "090000", [1]⟩),
      (1, ⟨"Roe^Rich", "20210202", "100000", [2]⟩)], 2⟩ [] "Doe" "/dl" 0 0
    ⟨by decide, by decide⟩ (by decide)

end OrthancHelper
